import Mathlib

/-!
Verification of the cyborg-sagemaker training-orchestration pipeline.

This file gives a shallow embedding, in Lean, of the parts of the repository
that the specification's testable properties talk about:

* `src/training/utils/config_loader.py` — configuration merging and
  environment-config validation (`merge_configs`, `validate_env_config`);
* `src/training/utils/env_factory.py` — environment construction and the
  closed-form observation-size computation (`create_cyborg_environment`,
  `get_observation_size`);
* `src/training/callbacks/checkpoint_callback.py` — periodic checkpointing,
  the final checkpoint, and retention-window eviction;
* `src/training/callbacks/sagemaker_callback.py` — the line-oriented metric
  protocol;
* `terraform/scripts/launch_training.py` — pre-flight checks gating job
  submission.

Python dictionaries are embedded as insertion-ordered association lists,
exceptions as `Except` values carrying structured error payloads, and the
file system / object store as explicit state.
-/

set_option linter.unusedVariables false

/-- Python values as stored in the configuration dictionaries handled by
`config_loader.py`: integers (Python `int`, which subsumes `bool`), strings,
and nested string-keyed dictionaries.  A dictionary is represented by its
association list in insertion order. -/
inductive PyVal where
  | vint  : Int → PyVal
  | vstr  : String → PyVal
  | vdict : List (String × PyVal) → PyVal
deriving Repr

/-- A Python dictionary with string keys: association list in insertion
order. -/
abbrev PyDict := List (String × PyVal)

/-- Python `d[key]` lookup: the value at the first binding of `key`
(a real Python dict has at most one). -/
def lookupA : PyDict → String → Option PyVal
  | [], _ => none
  | (k, v) :: t, key => if k = key then some v else lookupA t key

/-- Python `key in d` membership test. -/
def keyMem (l : PyDict) (k : String) : Bool :=
  (lookupA l k).isSome

/-- Python `d[key] = v` assignment on an insertion-ordered dictionary:
replace the value at an existing binding of `key` in place, otherwise append
a new binding at the end. -/
def upsert : PyDict → String → PyVal → PyDict
  | [], k, v => [(k, v)]
  | (k0, v0) :: t, k, v =>
    if k0 = k then (k0, v) :: t else (k0, v0) :: upsert t k v

/-- A dictionary has no duplicate keys (true of every real Python dict). -/
def noDupKeysB : PyDict → Bool
  | [] => true
  | (k, _) :: t => !(keyMem t k) && noDupKeysB t

mutual

/-- Loop body of `merge_configs` (config_loader.py lines 62-76): fold the
override dictionary's bindings into a copy of the base.  `deepMerge merged o`
runs the `for key, value in override_config.items()` loop with accumulator
`merged`. -/
def deepMerge : PyDict → PyDict → PyDict
  | merged, [] => merged
  | merged, (k, v) :: rest =>
      deepMerge (upsert merged k (mergeF (lookupA merged k) v)) rest
termination_by merged o => sizeOf o

/-- Branch of the `merge_configs` loop for one key: when the accumulated
dictionary holds a dictionary at the key and the override value is also a
dictionary, the two are merged recursively; otherwise the override value is
assigned wholesale. -/
def mergeF : Option PyVal → PyVal → PyVal
  | some (.vdict bt), .vdict ot => .vdict (deepMerge bt ot)
  | _, v => v
termination_by b v => sizeOf v

end

/-- merge_configs (config_loader.py lines 43-76): with no override, return a
copy of the base; otherwise deep-merge the override into the base with the
override taking precedence. -/
def merge_configs (base : PyDict) (override : Option PyDict) : PyDict :=
  match override with
  | none => base
  | some o => deepMerge base o

/- ### Well-formedness, merge-compatibility and Python dict equality -/

mutual

/-- Well-formed Python value: every dictionary nested inside it has no
duplicate keys (true of every value a real Python program can build). -/
def wfVal : PyVal → Bool
  | .vint _ => true
  | .vstr _ => true
  | .vdict l => noDupKeysB l && wfList l
termination_by v => sizeOf v

/-- All values of a dictionary are well-formed. -/
def wfList : PyDict → Bool
  | [] => true
  | (_, v) :: t => wfVal v && wfList t
termination_by l => sizeOf l

end

mutual

/-- Two configuration values are merge-compatible when no key path holds a
dictionary in one and a non-dictionary in the other. -/
def compatVal : PyVal → PyVal → Bool
  | .vdict l, .vdict m => compatList l m
  | .vdict _, _ => false
  | _, .vdict _ => false
  | _, _ => true
termination_by a b => sizeOf a

/-- Every key of the first dictionary that is also present in the second maps
to merge-compatible values. -/
def compatList : PyDict → PyDict → Bool
  | [], _ => true
  | (k, v) :: t, m =>
    (match lookupA m k with
     | some w => compatVal v w
     | none => true) && compatList t m
termination_by l m => sizeOf l

end

/-- Every key of `m` is present in `l`. -/
def keysSubset (m l : PyDict) : Bool :=
  m.all fun kv => keyMem l kv.1

mutual

/-- Python `==` on configuration values: numbers and strings compare by
value, dictionaries compare extensionally (same key set, equal values),
ignoring insertion order. -/
def eqvVal : PyVal → PyVal → Bool
  | .vint n, .vint m => n == m
  | .vstr s, .vstr t => s == t
  | .vdict l, .vdict m => eqvFwd l m && keysSubset m l
  | _, _ => false
termination_by a b => sizeOf a

/-- Every binding of the first dictionary has an `==`-equal binding in the
second. -/
def eqvFwd : PyDict → PyDict → Bool
  | [], _ => true
  | (k, v) :: t, m =>
    (match lookupA m k with
     | some w => eqvVal v w
     | none => false) && eqvFwd t m
termination_by l m => sizeOf l

end

/-- Option-level well-formedness (for values of Python lookups). -/
def wfOpt : Option PyVal → Bool
  | none => true
  | some v => wfVal v

/- ### Associativity of the deep merge on compatible layers -/

/-- A Python value is a dictionary. -/
def isDict : PyVal → Bool
  | .vdict _ => true
  | _ => false

/- ### validate_env_config (config_loader.py lines 126-159) -/

/-- Structured payload of the errors `validate_env_config` can raise: the
`ValueError` messages name the offending key (and, for an invalid value, the
value); `typeErr` is the `TypeError` Python raises when `key not in
max_params` is evaluated on a non-dictionary. -/
inductive ValidationError where
  | missingEnvKey (key : String)
  | missingParamKey (key : String)
  | invalidValue (key : String) (v : PyVal)
  | typeErr
deriving Repr

/-- The required ResourceBoundsMap keys, in the order the source checks
them (config_loader.py lines 146-150). -/
def required_max_params : List String :=
  ["MAX_HOSTS", "MAX_PROCESSES", "MAX_CONNECTIONS", "MAX_VULNERABILITIES",
   "MAX_INTERFACES", "MAX_SESSIONS", "MAX_USERS"]

/-- The `for key in required_max_params` loop (lines 152-156): a missing key
or a value that is not a non-negative integer raises, naming the key. -/
def checkMaxParams : List String → PyDict → Except ValidationError Unit
  | [], _ => .ok ()
  | key :: rest, mp =>
    match lookupA mp key with
    | none => .error (.missingParamKey key)
    | some v =>
      match v with
      | .vint n =>
        if n < 0 then .error (.invalidValue key (.vint n))
        else checkMaxParams rest mp
      | _ => .error (.invalidValue key v)

/-- validate_env_config (lines 126-159): requires the `max_params` key, then
checks every required bound key for presence and a non-negative integer
value; on success returns True. -/
def validate_env_config (env_config : PyDict) : Except ValidationError Bool :=
  match lookupA env_config "max_params" with
  | none => .error (.missingEnvKey "max_params")
  | some (.vdict mp) =>
    match checkMaxParams required_max_params mp with
    | .ok _ => .ok true
    | .error e => .error e
  | some _ => .error .typeErr

/-- The value at key `k` of the bounds map is a non-negative integer. -/
def goodBound (mp : PyDict) (k : String) : Prop :=
  ∃ n : Int, lookupA mp k = some (.vint n) ∧ 0 ≤ n

/-- A fully valid ResourceBoundsMap, used as a concrete witness input. -/
def validBoundsDict : PyDict :=
  [("MAX_HOSTS", PyVal.vint 5), ("MAX_PROCESSES", PyVal.vint 2),
   ("MAX_CONNECTIONS", PyVal.vint 2), ("MAX_VULNERABILITIES", PyVal.vint 1),
   ("MAX_INTERFACES", PyVal.vint 2), ("MAX_SESSIONS", PyVal.vint 3),
   ("MAX_USERS", PyVal.vint 5)]

/-- An environment configuration holding `validBoundsDict`. -/
def validEnvDict : PyDict := [("max_params", PyVal.vdict validBoundsDict)]

/- ### env_factory.py: observation size and environment construction -/

/-- Integer-valued bounds map (`max_params`), association list like the
Python dict. -/
abbrev BoundsMap := List (String × Int)

/-- Python `mp[k]` on an integer-valued dict (first binding). -/
def lookupI (mp : BoundsMap) (k : String) : Option Int :=
  List.lookup k mp

/-- The `max_params` part of `_get_default_env_config` (env_factory.py lines
108-129). -/
def default_max_params : BoundsMap :=
  [("MAX_HOSTS", 5), ("MAX_PROCESSES", 2), ("MAX_CONNECTIONS", 2),
   ("MAX_VULNERABILITIES", 1), ("MAX_INTERFACES", 2), ("MAX_SESSIONS", 3),
   ("MAX_USERS", 5), ("MAX_FILES", 0), ("MAX_GROUPS", 0), ("MAX_PATCHES", 0)]

/-- get_observation_size (env_factory.py lines 132-159).  The argument is the
configuration's `max_params` entry; `none` models an `env_config` without
one, for which `.get` substitutes the default.  The seven indexing
operations `max_params[...]` raise `KeyError` on a missing key, embedded as
`none`. -/
def get_observation_size (mpArg : Option BoundsMap) : Option Int :=
  let mp := mpArg.getD default_max_params
  match lookupI mp "MAX_HOSTS", lookupI mp "MAX_PROCESSES",
      lookupI mp "MAX_CONNECTIONS", lookupI mp "MAX_VULNERABILITIES",
      lookupI mp "MAX_INTERFACES", lookupI mp "MAX_SESSIONS",
      lookupI mp "MAX_USERS" with
  | some hosts, some procs, some conns, some vulns, some ifaces,
      some sess, some users =>
    some (hosts * (1
      + procs * 4
      + conns * 3
      + vulns * 2
      + ifaces * 4
      + sess * 3
      + users * 2))
  | _, _, _, _, _, _, _ => none

/-- Modelled from the spec: the closed-form observation length, "the sum over
bounded entity types of the per-type bound multiplied by the per-type field
count".  Entity types and field counts: host identifiers (1 field), and the
per-host processes (4), connections (3), vulnerabilities (2), interfaces
(4), sessions (3) and users (2), whose bound in the whole observation is
the host bound times the per-host bound. -/
def specObservationSize (hosts procs conns vulns ifaces sess users : Int) :
    Int :=
  hosts * 1 + (hosts * procs) * 4 + (hosts * conns) * 3
    + (hosts * vulns) * 2 + (hosts * ifaces) * 4 + (hosts * sess) * 3
    + (hosts * users) * 2

/- ### create_cyborg_environment (env_factory.py lines 20-105) -/

/-- Failures observable from `create_cyborg_environment`: the explicit
`FileNotFoundError` for a missing scenario file (line 73), the `KeyError`
from `env_config["max_params"]` inside `_make_env` (line 87), and the
`IndexError` raised by `DummyVecEnv` when given an empty environment list. -/
inductive EnvBuildError where
  | scenarioNotFound (path : String)
  | keyError (key : String)
  | emptyVecEnv
deriving Repr, DecidableEq

/-- A single wrapped CybORG environment (the result of `_make_env`): the
wrapper chain is opaque here; it records the bounds its FixedFlatWrapper was
given. -/
structure GymEnv where
  maxParams : BoundsMap
deriving Repr, DecidableEq

/-- A vectorized environment handle. -/
structure VecEnvHandle where
  nEnvs : Int
deriving Repr, DecidableEq

/-- The parts of an environment configuration dict that
`create_cyborg_environment` consumes: the optional `max_params` entry plus
the observability flags. -/
structure EnvCfg where
  fully_obs : Bool
  randomize_env : Bool
  maxParams? : Option BoundsMap
deriving Repr, DecidableEq

/-- _get_default_env_config (env_factory.py lines 108-129). -/
def _get_default_env_config : EnvCfg :=
  ⟨false, false, some default_max_params⟩

/-- Models stable_baselines3's `make_vec_env` with the default `DummyVecEnv`:
it first builds the list `[fn() for i in range(n_envs)]` — for `n_envs < 1`
the range is empty and no environment is constructed — then `DummyVecEnv`
reads `envs[0]`, which on the empty list raises `IndexError`.  A failure
inside the environment thunk propagates. -/
def make_vec_env (mk : Unit → Except EnvBuildError GymEnv) (n_envs : Int) :
    Except EnvBuildError VecEnvHandle :=
  if n_envs < 1 then .error .emptyVecEnv
  else
    match mk () with
    | .error e => .error e
    | .ok _ => .ok ⟨n_envs⟩

/-- create_cyborg_environment (env_factory.py lines 20-105): substitute the
default configuration when none is given, verify the scenario file exists
(raising the error naming the path), then build the wrapped environment(s)
through `make_vec_env`; `_make_env` reads `env_config["max_params"]`.
`fs` is the set of existing file-system paths. -/
def create_cyborg_environment (fs : List String) (scenario_path : String)
    (env_config : Option EnvCfg) (n_envs : Int) :
    Except EnvBuildError VecEnvHandle :=
  let cfg := env_config.getD _get_default_env_config
  if scenario_path ∈ fs then
    make_vec_env (fun _ =>
      match cfg.maxParams? with
      | none => .error (.keyError "max_params")
      | some mp => .ok ⟨mp⟩) n_envs
  else .error (.scenarioNotFound scenario_path)

/-- An `Except` is a success. -/
def isOkB {ε α : Type} : Except ε α → Bool
  | .ok _ => true
  | .error _ => false

/- ### checkpoint_callback.py: periodic saves, the final checkpoint, and
retention eviction -/

/-- A checkpoint artifact written by CheckpointCallback under the default
name prefix: periodic checkpoints carry the global step
(`self.num_timesteps`) at which they were saved, the terminal checkpoint
carries the `final` marker. -/
inductive CkptName where
  | periodic (step : Nat)
  | final
deriving Repr, DecidableEq

/-- Rendered checkpoint file name (checkpoint_callback.py lines 91 and 134)
for prefix `pfx`. -/
def renderCkptName (pfx : String) : CkptName → String
  | .periodic t => pfx ++ "_" ++ toString t ++ ".zip"
  | .final => pfx ++ "_final.zip"

/-- The checkpoint directory as both callbacks see it: files in creation
order (which, for this single-threaded writer, is also
modification-time order), plus the `checkpoints_saved` counter. -/
structure CkptState where
  disk : List CkptName
  saved : Nat
deriving Repr, DecidableEq

/-- The empty checkpoint directory at callback construction. -/
def initCkptState : CkptState := ⟨[], 0⟩

/-- Body of the periodic-save branch of CheckpointCallback._on_step (lines
66-81): save the model as `<pfx>_<num_timesteps>.zip` and increment the
counter. -/
def saveCheckpoint (s : CkptState) (t : Nat) : CkptState :=
  ⟨s.disk ++ [.periodic t], s.saved + 1⟩

/-- CheckpointCallback._upload_to_s3 (lines 94-125): with no client or
bucket configured it returns False; otherwise it attempts the transfer and
catches every exception, returning False instead of propagating. -/
def uploadToS3 (s3Configured : Bool) (transfer : Except String Unit) : Bool :=
  if s3Configured then
    match transfer with
    | .ok _ => true
    | .error _ => false
  else false

/-- CheckpointCallback._on_step (lines 60-83): on every `save_freq`-th call
a periodic checkpoint is saved (and a best-effort upload attempted, which
does not change the local directory); the hook always returns True. -/
def ckptOnStep (save_freq n_calls t : Nat)
    (upload : Except String Unit) (s : CkptState) : CkptState × Bool :=
  if n_calls % save_freq == 0 then (saveCheckpoint s t, true) else (s, true)

/-- CheckpointCallback._on_training_end (lines 127-147): unconditionally
saves one additional checkpoint named `<pfx>_final.zip` (no cadence test,
no counter change) and returns True. -/
def ckptOnTrainingEnd (s : CkptState) : CkptState × Bool :=
  (⟨s.disk ++ [.final], s.saved⟩, true)

/-- LatestCheckpointCallback._cleanup_old_checkpoints (lines 185-204): the
files matching `checkpoint_*.zip` — under the default prefix, every file
either callback writes — sorted newest-first by modification time (the
reverse of creation order); all but the first `keep_last_n` are deleted, so
in creation order the last `keep_last_n` files remain. -/
def cleanup_old_checkpoints (keep_last_n : Nat) (s : CkptState) : CkptState :=
  ⟨(s.disk.reverse.take keep_last_n).reverse, s.saved⟩

/-- LatestCheckpointCallback._on_step (lines 173-183): every 100th call runs
the cleanup; the hook always returns True. -/
def latestOnStep (keep_last_n n_calls : Nat) (s : CkptState) :
    CkptState × Bool :=
  if n_calls % 100 == 0 then (cleanup_old_checkpoints keep_last_n s, true)
  else (s, true)

/-- One training-run event as the two callbacks observe it: a periodic save
(an `_on_step` call whose cadence fires, at global step `t`) or an eviction
pass.  The final save happens once, after all run events, when the trainer
calls `_on_training_end`. -/
inductive RunEvent where
  | save (t : Nat)
  | evict
deriving Repr, DecidableEq

/-- Effect of one run event on the checkpoint directory, with retention
bound `N`. -/
def execEvent (N : Nat) (s : CkptState) : RunEvent → CkptState
  | .save t => saveCheckpoint s t
  | .evict => cleanup_old_checkpoints N s

/-- Run a sequence of events. -/
def runEvents (N : Nat) (s : CkptState) : List RunEvent → CkptState
  | [] => s
  | e :: rest => runEvents N (execEvent N s e) rest

/-- The steps of the saves of an event sequence, in order. -/
def saveSteps : List RunEvent → List Nat
  | [] => []
  | .save t :: rest => t :: saveSteps rest
  | .evict :: rest => saveSteps rest

/- ### sagemaker_callback.py: the line-oriented metric protocol -/

/-- A metric line is a (name, rendered value) pair; its printed text form is
`name: value`. -/
def renderMetricLine (p : String × String) : String :=
  p.1 ++ ": " ++ p.2

/-- The `episode` entry of an info dict: rendered reward `r` and length
`l`. -/
structure EpInfo where
  r : String
  l : String
deriving Repr, DecidableEq

/-- Python `d[k]` on the logger's `name_to_value` mapping. -/
def lookupS (nv : List (String × String)) (k : String) : Option String :=
  List.lookup k nv

/-- One `if key in name_to_value: print(out + value)` statement of
`_emit_algorithm_metrics`. -/
def optLine (nv : List (String × String)) (src out : String) :
    List (String × String) :=
  match lookupS nv src with
  | some v => [(out, v)]
  | none => []

/-- The `hasattr(self.model, 'exploration_rate')` guard: the line is printed
exactly when the trainer exposes the attribute. -/
def explLine (expl : Option String) : List (String × String) :=
  match expl with
  | some e => [("exploration_rate", e)]
  | none => []

/-- SageMakerCallback._emit_algorithm_metrics (lines 96-131): the
exploration-rate line when the model has one, then — when a logger with a
`name_to_value` store is present — one line per available key, in source
order. -/
def emit_algorithm_metrics (expl : Option String)
    (store : Option (List (String × String))) : List (String × String) :=
  explLine expl
  ++ (match store with
      | none => []
      | some nv =>
        optLine nv "train/loss" "loss"
        ++ optLine nv "train/policy_loss" "policy_loss"
        ++ optLine nv "train/value_loss" "value_loss"
        ++ optLine nv "train/entropy_loss" "entropy_loss"
        ++ optLine nv "train/approx_kl" "approx_kl"
        ++ optLine nv "train/clip_fraction" "clip_fraction"
        ++ optLine nv "replay_buffer/prioritized_replay_beta" "per_beta")

/-- The episode-end path of SageMakerCallback._on_step (lines 64-88): the
lines printed for one finished episode — the four required metrics, then the
algorithm-dependent ones.  `count` is the episode counter after its
increment, `t` the current `num_timesteps`. -/
def emitEpisodeLines (reward len : String) (count t : Nat)
    (expl : Option String) (store : Option (List (String × String))) :
    List (String × String) :=
  [("episode_reward", reward), ("episode_length", len),
   ("episode_number", toString count), ("total_timesteps", toString t)]
  ++ emit_algorithm_metrics expl store

/-- Accumulated episode statistics of SageMakerCallback. -/
structure SMState where
  episode_rewards : List String
  episode_lengths : List String
  episode_count : Nat
deriving Repr, DecidableEq

/-- The `for i, (done, info) in enumerate(zip(dones, infos))` loop of
`_on_step`: each finished episode whose info holds an `episode` entry is
recorded and its metric lines are emitted. -/
def smProcess (t : Nat) (expl : Option String)
    (store : Option (List (String × String))) :
    SMState → List (Bool × Option EpInfo) →
      SMState × List (String × String)
  | st, [] => (st, [])
  | st, (done, info) :: rest =>
    if done then
      match info with
      | some ep =>
        let st2 : SMState :=
          ⟨st.episode_rewards ++ [ep.r], st.episode_lengths ++ [ep.l],
           st.episode_count + 1⟩
        let res := smProcess t expl store st2 rest
        (res.1, emitEpisodeLines ep.r ep.l st2.episode_count t expl store
          ++ res.2)
      | none => smProcess t expl store st rest
    else smProcess t expl store st rest

/-- SageMakerCallback._on_step (lines 50-94): when some environment finished
an episode, process the dones/infos pairs; the hook always returns True. -/
def sagemakerOnStep (st : SMState) (donesInfos : List (Bool × Option EpInfo))
    (t : Nat) (expl : Option String)
    (store : Option (List (String × String))) :
    SMState × List (String × String) × Bool :=
  if donesInfos.any (fun p => p.1) then
    let res := smProcess t expl store st donesInfos
    (res.1, res.2, true)
  else (st, [], true)

/- ### launch_training.py: pre-flight checks gating submission -/

/-- Failure payload of the pre-flight check: each `sys.exit(1)` path logs an
error naming the missing artifact (launch_training.py lines 217, 224,
231). -/
inductive PreflightError where
  | imageMissing (imageUri : String)
  | configMissing (s3Key : String)
  | scenarioMissing (s3Key : String)
deriving Repr, DecidableEq

/-- The external storage the launcher consults: image tags present in the
ECR training repository, and object keys present in the artifacts S3
bucket. -/
structure ArtifactStore where
  ecrImageTags : List String
  s3Keys : List String
deriving Repr, DecidableEq

/-- SageMakerTrainingLauncher.check_prerequisites (launch_training.py lines
201-235): confirm the Docker image tag in ECR, then the algorithm
configuration object, then the scenario object in S3 — in that order; the
first missing artifact aborts the launcher (`sys.exit(1)`), embedded as an
error naming it. -/
def check_prerequisites (st : ArtifactStore)
    (trainingImage algorithm scenario imageTag : String) :
    Except PreflightError Unit :=
  if imageTag ∉ st.ecrImageTags then
    .error (.imageMissing (trainingImage ++ ":" ++ imageTag))
  else if ("configs/algorithms/" ++ algorithm ++ ".yaml") ∉ st.s3Keys then
    .error (.configMissing ("configs/algorithms/" ++ algorithm ++ ".yaml"))
  else if ("configs/environments/scenarios/" ++ scenario) ∉ st.s3Keys then
    .error (.scenarioMissing ("configs/environments/scenarios/" ++ scenario))
  else .ok ()

/-- The externally visible steps of one launcher invocation. -/
inductive LaunchStep where
  | checkedPrerequisites
  | builtDescriptor
  | submitted
deriving Repr, DecidableEq

/-- Skeleton of main() (launch_training.py lines 469-566) from the point the
launcher object exists: `check_prerequisites` runs first and, on failure,
exits the process so nothing after it executes; only after it succeeds is
the job descriptor built (`build_training_job_config`, line 546) and
submitted (`launch_training_job`, line 562).  Returns the completed steps in
execution order together with the outcome. -/
def launch_main (st : ArtifactStore)
    (trainingImage algorithm scenario imageTag : String) :
    List LaunchStep × Except PreflightError Unit :=
  match check_prerequisites st trainingImage algorithm scenario imageTag with
  | .error e => ([], .error e)
  | .ok _ => ([.checkedPrerequisites, .builtDescriptor, .submitted], .ok ())

/- ### Basic dictionary lemmas -/

theorem lookupA_upsert (l : PyDict) (k : String) (v : PyVal) (key : String) :
    lookupA (upsert l k v) key = if k = key then some v else lookupA l key := by
  induction l with
  | nil => simp [upsert, lookupA]
  | cons hd t ih =>
    obtain ⟨k0, v0⟩ := hd
    by_cases h0 : k0 = k
    · subst h0
      by_cases hk : k0 = key <;> simp [upsert, lookupA, hk]
    · by_cases hk : k0 = key
      · subst hk
        have : k ≠ k0 := fun h => h0 h.symm
        simp [upsert, lookupA, h0, this]
      · simp [upsert, lookupA, h0, hk, ih]

theorem keyMem_upsert (l : PyDict) (k : String) (v : PyVal) (key : String) :
    keyMem (upsert l k v) key = (keyMem l key || (k = key)) := by
  by_cases h : k = key <;> simp [keyMem, lookupA_upsert, h]

theorem noDupKeysB_upsert (l : PyDict) (k : String) (v : PyVal)
    (h : noDupKeysB l = true) : noDupKeysB (upsert l k v) = true := by
  induction l with
  | nil => simp [upsert, noDupKeysB, keyMem, lookupA]
  | cons hd t ih =>
    obtain ⟨k0, v0⟩ := hd
    simp only [noDupKeysB, Bool.and_eq_true, Bool.not_eq_true'] at h
    by_cases h0 : k0 = k
    · subst h0
      simp [upsert, noDupKeysB, h.1, h.2, keyMem] at *
      exact h
    · simp only [upsert, h0, if_false, noDupKeysB, keyMem_upsert,
        Bool.and_eq_true, Bool.not_eq_true']
      refine ⟨?_, ih h.2⟩
      simp only [h.1, Bool.false_or, decide_eq_false_iff_not]
      exact fun hh => h0 hh.symm

theorem keyMem_cons (k : String) (v : PyVal) (t : PyDict) (key : String) :
    keyMem ((k, v) :: t) key = ((k = key) || keyMem t key) := by
  by_cases h : k = key <;> simp [keyMem, lookupA, h]

theorem lookupA_mem {l : PyDict} {k : String} {v : PyVal}
    (h : lookupA l k = some v) : (k, v) ∈ l := by
  induction l with
  | nil => simp [lookupA] at h
  | cons hd t ih =>
    obtain ⟨k0, v0⟩ := hd
    by_cases h0 : k0 = k
    · subst h0
      simp [lookupA] at h
      simp [h]
    · simp [lookupA, h0] at h
      exact List.mem_cons_of_mem _ (ih h)

theorem keyMem_of_mem {l : PyDict} {k : String} {v : PyVal}
    (h : (k, v) ∈ l) : keyMem l k = true := by
  induction l with
  | nil => simp at h
  | cons hd t ih =>
    obtain ⟨k0, v0⟩ := hd
    rw [keyMem_cons]
    by_cases h0 : k0 = k
    · simp [h0]
    · rcases List.mem_cons.mp h with h1 | h1
      · exact absurd (congrArg Prod.fst h1).symm h0
      · simp [ih h1]

theorem lookupA_of_mem_noDup {l : PyDict} {k : String} {v : PyVal}
    (hnd : noDupKeysB l = true) (h : (k, v) ∈ l) : lookupA l k = some v := by
  induction l with
  | nil => simp at h
  | cons hd0 t ih =>
    obtain ⟨k0, v0⟩ := hd0
    simp only [noDupKeysB, Bool.and_eq_true, Bool.not_eq_true'] at hnd
    rcases List.mem_cons.mp h with h1 | h1
    · obtain ⟨hk, hv⟩ := Prod.mk.injEq .. ▸ h1
      simp_all [lookupA]
    · by_cases h0 : k0 = k
      · subst h0
        exact absurd (keyMem_of_mem h1) (by simp [hnd.1])
      · simp [lookupA, h0]
        exact ih hnd.2 h1

/- ### The key-wise characterisation of the merge loop -/

theorem lookupA_deepMerge (o : PyDict) (base : PyDict) (key : String)
    (hnd : noDupKeysB o = true) :
    lookupA (deepMerge base o) key =
      match lookupA o key with
      | none => lookupA base key
      | some v => some (mergeF (lookupA base key) v) := by
  induction o generalizing base with
  | nil => simp [deepMerge, lookupA]
  | cons hd rest ih =>
    obtain ⟨k, v⟩ := hd
    simp only [noDupKeysB, Bool.and_eq_true, Bool.not_eq_true'] at hnd
    rw [show deepMerge base ((k, v) :: rest)
        = deepMerge (upsert base k (mergeF (lookupA base k) v)) rest from by
      rw [deepMerge]]
    rw [ih _ hnd.2]
    by_cases hk : k = key
    · subst hk
      have hrest : lookupA rest k = none := by
        simp [keyMem] at hnd
        exact Option.not_isSome_iff_eq_none.mp (by simp [hnd.1])
      simp [hrest, lookupA, lookupA_upsert]
    · have : lookupA (upsert base k (mergeF (lookupA base k) v)) key
          = lookupA base key := by
        simp [lookupA_upsert, hk]
      simp [lookupA, hk, this]

theorem keyMem_deepMerge (o : PyDict) (base : PyDict) (key : String) :
    keyMem (deepMerge base o) key = (keyMem base key || keyMem o key) := by
  induction o generalizing base with
  | nil => simp [deepMerge, keyMem, lookupA]
  | cons hd rest ih =>
    obtain ⟨k, v⟩ := hd
    rw [show deepMerge base ((k, v) :: rest)
        = deepMerge (upsert base k (mergeF (lookupA base k) v)) rest from by
      rw [deepMerge]]
    rw [ih, keyMem_upsert, keyMem_cons, Bool.or_assoc]

theorem noDupKeysB_deepMerge (o : PyDict) (base : PyDict)
    (h : noDupKeysB base = true) : noDupKeysB (deepMerge base o) = true := by
  induction o generalizing base with
  | nil => simpa [deepMerge]
  | cons hd rest ih =>
    obtain ⟨k, v⟩ := hd
    rw [show deepMerge base ((k, v) :: rest)
        = deepMerge (upsert base k (mergeF (lookupA base k) v)) rest from by
      rw [deepMerge]]
    exact ih _ (noDupKeysB_upsert _ _ _ h)

/- ### Size lemmas for well-founded inductions -/

theorem sizeOf_lookupA {l : PyDict} {k : String} {v : PyVal}
    (h : lookupA l k = some v) : sizeOf v < sizeOf l := by
  induction l with
  | nil => simp [lookupA] at h
  | cons hd t ih =>
    obtain ⟨k0, v0⟩ := hd
    by_cases h0 : k0 = k
    · simp [lookupA, h0] at h
      subst h
      simp
      omega
    · simp [lookupA, h0] at h
      have := ih h
      simp
      omega

theorem sizeOf_mem_val {l : PyDict} {k : String} {v : PyVal}
    (h : (k, v) ∈ l) : sizeOf v < sizeOf l := by
  induction l with
  | nil => simp at h
  | cons hd t ih =>
    rcases List.mem_cons.mp h with h1 | h1
    · subst h1
      simp
      omega
    · have := ih h1
      simp
      omega

/- ### Unfolding lemmas for the well-founded definitions -/

theorem deepMerge_nil (b : PyDict) : deepMerge b [] = b := by
  rw [deepMerge]

theorem deepMerge_cons (b : PyDict) (k : String) (v : PyVal) (rest : PyDict) :
    deepMerge b ((k, v) :: rest)
      = deepMerge (upsert b k (mergeF (lookupA b k) v)) rest := by
  rw [deepMerge]

theorem mergeF_dict (bt ot : PyDict) :
    mergeF (some (.vdict bt)) (.vdict ot) = .vdict (deepMerge bt ot) := by
  rw [mergeF]

theorem mergeF_none (v : PyVal) : mergeF none v = v := by
  cases v <;> simp [mergeF]

theorem mergeF_int_right (x : Option PyVal) (n : Int) :
    mergeF x (.vint n) = .vint n := by
  rcases x with _ | w
  · simp [mergeF]
  · cases w <;> simp [mergeF]

theorem mergeF_str_right (x : Option PyVal) (s : String) :
    mergeF x (.vstr s) = .vstr s := by
  rcases x with _ | w
  · simp [mergeF]
  · cases w <;> simp [mergeF]

theorem mergeF_int_left (n : Int) (v : PyVal) :
    mergeF (some (.vint n)) v = v := by
  cases v <;> simp [mergeF]

theorem mergeF_str_left (s : String) (v : PyVal) :
    mergeF (some (.vstr s)) v = v := by
  cases v <;> simp [mergeF]

theorem wfVal_vdict (l : PyDict) :
    wfVal (.vdict l) = (noDupKeysB l && wfList l) := by
  rw [wfVal]

theorem wfList_cons (k : String) (v : PyVal) (t : PyDict) :
    wfList ((k, v) :: t) = (wfVal v && wfList t) := by
  rw [wfList]

theorem wfVal_lookupA {l : PyDict} {k : String} {v : PyVal}
    (hw : wfList l = true) (h : lookupA l k = some v) : wfVal v = true := by
  induction l with
  | nil => simp [lookupA] at h
  | cons hd t ih =>
    obtain ⟨k0, v0⟩ := hd
    rw [wfList_cons, Bool.and_eq_true] at hw
    by_cases h0 : k0 = k
    · simp [lookupA, h0] at h
      exact h ▸ hw.1
    · simp [lookupA, h0] at h
      exact ih hw.2 h

theorem wfOpt_lookupA {l : PyDict} (k : String)
    (hw : wfList l = true) : wfOpt (lookupA l k) = true := by
  cases h : lookupA l k with
  | none => simp [wfOpt]
  | some v => simpa [wfOpt] using wfVal_lookupA hw h

theorem wfList_upsert {l : PyDict} (k : String) {v : PyVal}
    (hw : wfList l = true) (hv : wfVal v = true) :
    wfList (upsert l k v) = true := by
  induction l with
  | nil => simp [upsert, wfList_cons, hv, wfList]
  | cons hd t ih =>
    obtain ⟨k0, v0⟩ := hd
    rw [wfList_cons, Bool.and_eq_true] at hw
    by_cases h0 : k0 = k
    · simp [upsert, h0, wfList_cons, hv, hw.2]
    · simp [upsert, h0, wfList_cons, hw.1]
      exact ih hw.2

/- ### The merge preserves well-formedness -/

theorem wf_merge_aux : ∀ n : Nat,
    (∀ o b, sizeOf o ≤ n → wfList b = true → wfList o = true →
      wfList (deepMerge b o) = true) ∧
    (∀ v x, sizeOf v ≤ n → wfOpt x = true → wfVal v = true →
      wfVal (mergeF x v) = true) := by
  intro n
  induction n using Nat.strong_induction_on with
  | _ n ih =>
    constructor
    · intro o b hs hwb hwo
      match o with
      | [] => simpa [deepMerge_nil]
      | (k, v) :: rest =>
        rw [deepMerge_cons]
        rw [wfList_cons, Bool.and_eq_true] at hwo
        have hsv : sizeOf v < n := by
          have : sizeOf v < sizeOf ((k, v) :: rest) := by simp; try omega
          omega
        have hsr : sizeOf rest < n := by
          have : sizeOf rest < sizeOf ((k, v) :: rest) := by simp; try omega
          omega
        have hmf : wfVal (mergeF (lookupA b k) v) = true :=
          (ih (sizeOf v) hsv).2 v (lookupA b k) le_rfl (wfOpt_lookupA k hwb) hwo.1
        exact (ih (sizeOf rest) hsr).1 rest (upsert b k (mergeF (lookupA b k) v))
          le_rfl (wfList_upsert k hwb hmf) hwo.2
    · intro v x hs hwx hwv
      rcases x with _ | w
      · rw [mergeF_none]; exact hwv
      · cases w with
        | vint m => rw [mergeF_int_left]; exact hwv
        | vstr s => rw [mergeF_str_left]; exact hwv
        | vdict bt =>
          cases v with
          | vint m => rw [mergeF_int_right]; simp [wfVal]
          | vstr s => rw [mergeF_str_right]; simp [wfVal]
          | vdict ot =>
            rw [mergeF_dict, wfVal_vdict, Bool.and_eq_true]
            rw [wfOpt, wfVal_vdict, Bool.and_eq_true] at hwx
            rw [wfVal_vdict, Bool.and_eq_true] at hwv
            have hso : sizeOf ot < n := by
              have : sizeOf ot < sizeOf (PyVal.vdict ot) := by simp; try omega
              omega
            exact ⟨noDupKeysB_deepMerge _ _ hwx.1,
              (ih (sizeOf ot) hso).1 ot bt le_rfl hwx.2 hwv.2⟩

theorem wfList_deepMerge {b o : PyDict}
    (hwb : wfList b = true) (hwo : wfList o = true) :
    wfList (deepMerge b o) = true :=
  (wf_merge_aux (sizeOf o)).1 o b le_rfl hwb hwo

theorem wfVal_mergeF {x : Option PyVal} {v : PyVal}
    (hwx : wfOpt x = true) (hwv : wfVal v = true) :
    wfVal (mergeF x v) = true :=
  (wf_merge_aux (sizeOf v)).2 v x le_rfl hwx hwv

/- ### Reflexivity of Python dict equality on well-formed values -/

theorem eqvVal_vint (n m : Int) : eqvVal (.vint n) (.vint m) = (n == m) := by
  rw [eqvVal]

theorem eqvVal_vstr (s t : String) : eqvVal (.vstr s) (.vstr t) = (s == t) := by
  rw [eqvVal]

theorem eqvVal_vdict (l m : PyDict) :
    eqvVal (.vdict l) (.vdict m) = (eqvFwd l m && keysSubset m l) := by
  rw [eqvVal]

theorem eqvFwd_cons (k : String) (v : PyVal) (t m : PyDict) :
    eqvFwd ((k, v) :: t) m
      = ((match lookupA m k with
          | some w => eqvVal v w
          | none => false) && eqvFwd t m) := by
  rw [eqvFwd]

theorem eqvFwd_nil (m : PyDict) : eqvFwd [] m = true := by
  rw [eqvFwd]

theorem keysSubset_refl (l : PyDict) : keysSubset l l = true := by
  rw [keysSubset, List.all_eq_true]
  intro kv hkv
  obtain ⟨k, v⟩ := kv
  exact keyMem_of_mem hkv

theorem eqvVal_refl_aux : ∀ n : Nat, ∀ v : PyVal, sizeOf v ≤ n →
    wfVal v = true → eqvVal v v = true := by
  intro n
  induction n using Nat.strong_induction_on with
  | _ n ih =>
    intro v hs hwv
    cases v with
    | vint m => simp [eqvVal_vint]
    | vstr s => simp [eqvVal_vstr]
    | vdict l =>
      rw [eqvVal_vdict, Bool.and_eq_true]
      rw [wfVal_vdict, Bool.and_eq_true] at hwv
      refine ⟨?_, keysSubset_refl l⟩
      have hmain : ∀ t : PyDict, (∀ kv, kv ∈ t → kv ∈ l) →
          eqvFwd t l = true := by
        intro t
        induction t with
        | nil => intro _; rw [eqvFwd_nil]
        | cons hd t2 ih2 =>
          obtain ⟨k, v⟩ := hd
          intro hsub
          rw [eqvFwd_cons, Bool.and_eq_true]
          have hmem : (k, v) ∈ l := hsub _ (List.mem_cons_self _ _)
          have hlk : lookupA l k = some v := lookupA_of_mem_noDup hwv.1 hmem
          have hsz : sizeOf v < n := by
            have h1 : sizeOf v < sizeOf l := sizeOf_mem_val hmem
            have h2 : sizeOf l < sizeOf (PyVal.vdict l) := by simp; try omega
            omega
          have hwfv : wfVal v = true := wfVal_lookupA hwv.2 hlk
          refine ⟨?_, ih2 (fun kv hkv => hsub kv (List.mem_cons_of_mem _ hkv))⟩
          rw [hlk]
          exact ih (sizeOf v) hsz v le_rfl hwfv
      exact hmain l (fun kv h => h)

theorem eqvVal_refl {v : PyVal} (hwv : wfVal v = true) : eqvVal v v = true :=
  eqvVal_refl_aux (sizeOf v) v le_rfl hwv

/- ### Compatibility of looked-up values -/

theorem compatList_cons (k : String) (v : PyVal) (t m : PyDict) :
    compatList ((k, v) :: t) m
      = ((match lookupA m k with
          | some w => compatVal v w
          | none => true) && compatList t m) := by
  rw [compatList]

theorem compatVal_dict (l m : PyDict) :
    compatVal (.vdict l) (.vdict m) = compatList l m := by
  rw [compatVal]

theorem compatList_lookup {a b : PyDict} {k : String} {v w : PyVal}
    (hc : compatList a b = true)
    (ha : lookupA a k = some v) (hb : lookupA b k = some w) :
    compatVal v w = true := by
  induction a with
  | nil => simp [lookupA] at ha
  | cons hd t ih =>
    obtain ⟨k0, v0⟩ := hd
    rw [compatList_cons, Bool.and_eq_true] at hc
    by_cases h0 : k0 = k
    · subst h0
      simp [lookupA] at ha
      subst ha
      have := hc.1
      rw [hb] at this
      exact this
    · simp [lookupA, h0] at ha
      exact ih hc.2 ha

/- ### Pointwise characterisation implies dict equality -/

theorem eqv_of_pointwise {L R : PyDict} (hndL : noDupKeysB L = true)
    (hp : ∀ k : String,
      match lookupA L k, lookupA R k with
      | none, none => True
      | some v, some w => eqvVal v w = true
      | _, _ => False) :
    eqvVal (.vdict L) (.vdict R) = true := by
  rw [eqvVal_vdict, Bool.and_eq_true]
  constructor
  · have hmain : ∀ t : PyDict, (∀ kv, kv ∈ t → kv ∈ L) →
        eqvFwd t R = true := by
      intro t
      induction t with
      | nil => intro _; rw [eqvFwd_nil]
      | cons hd t2 ih2 =>
        obtain ⟨k, v⟩ := hd
        intro hsub
        rw [eqvFwd_cons, Bool.and_eq_true]
        have hmem : (k, v) ∈ L := hsub _ (List.mem_cons_self _ _)
        have hlk : lookupA L k = some v := lookupA_of_mem_noDup hndL hmem
        refine ⟨?_, ih2 (fun kv hkv => hsub kv (List.mem_cons_of_mem _ hkv))⟩
        have := hp k
        rw [hlk] at this
        cases hR : lookupA R k with
        | none => rw [hR] at this; exact absurd this (by simp)
        | some w => rw [hR] at this; simpa using this
    exact hmain L (fun kv h => h)
  · rw [keysSubset, List.all_eq_true]
    intro kv hkv
    obtain ⟨k, w⟩ := kv
    have hk : keyMem R k = true := keyMem_of_mem hkv
    have := hp k
    cases hR : lookupA R k with
    | none => rw [keyMem, hR] at hk; simp at hk
    | some w2 =>
      rw [hR] at this
      cases hL : lookupA L k with
      | none => rw [hL] at this; exact absurd this (by simp)
      | some v => rw [hL] at this; simp [keyMem, hL]

theorem mergeF_nondict (x : Option PyVal) {v : PyVal}
    (h : isDict v = false) : mergeF x v = v := by
  cases v with
  | vint n => exact mergeF_int_right x n
  | vstr s => exact mergeF_str_right x s
  | vdict l => simp [isDict] at h

theorem compat_isDict {v w : PyVal} (h : compatVal v w = true) :
    isDict v = isDict w := by
  cases v <;> cases w <;> simp [isDict] <;> simp [compatVal] at h

theorem deepMerge_assoc_aux : ∀ n : Nat, ∀ a b c : PyDict,
    sizeOf a + sizeOf b + sizeOf c ≤ n →
    wfList a = true → wfList b = true → wfList c = true →
    noDupKeysB a = true → noDupKeysB b = true → noDupKeysB c = true →
    compatList a b = true → compatList b c = true → compatList a c = true →
    eqvVal (.vdict (deepMerge (deepMerge a b) c))
           (.vdict (deepMerge a (deepMerge b c))) = true := by
  intro n
  induction n using Nat.strong_induction_on with
  | _ n ih =>
    intro a b c hs hwa hwb hwc hna hnb hnc hab hbc hac
    apply eqv_of_pointwise (noDupKeysB_deepMerge _ _ (noDupKeysB_deepMerge _ _ hna))
    intro k
    have hnbc : noDupKeysB (deepMerge b c) = true := noDupKeysB_deepMerge c b hnb
    rw [lookupA_deepMerge c _ k hnc, lookupA_deepMerge b a k hnb,
      lookupA_deepMerge (deepMerge b c) a k hnbc, lookupA_deepMerge c b k hnc]
    cases hC : lookupA c k with
    | none =>
      cases hB : lookupA b k with
      | none =>
        cases hA : lookupA a k with
        | none => simp
        | some av =>
          simp
          exact eqvVal_refl (wfVal_lookupA hwa hA)
      | some bv =>
        simp
        exact eqvVal_refl
          (wfVal_mergeF (wfOpt_lookupA k hwa) (wfVal_lookupA hwb hB))
    | some cv =>
      cases hB : lookupA b k with
      | none =>
        simp [mergeF_none]
        exact eqvVal_refl
          (wfVal_mergeF (wfOpt_lookupA k hwa) (wfVal_lookupA hwc hC))
      | some bv =>
        have hwbv : wfVal bv = true := wfVal_lookupA hwb hB
        have hwcv : wfVal cv = true := wfVal_lookupA hwc hC
        cases hA : lookupA a k with
        | none =>
          simp [mergeF_none]
          exact eqvVal_refl
            (wfVal_mergeF (show wfOpt (some bv) = true from hwbv) hwcv)
        | some av =>
          have hwav : wfVal av = true := wfVal_lookupA hwa hA
          have cab : compatVal av bv = true := compatList_lookup hab hA hB
          have cbc : compatVal bv cv = true := compatList_lookup hbc hB hC
          have cac : compatVal av cv = true := compatList_lookup hac hA hC
          by_cases hdv : isDict av = true
          · cases av with
            | vint m => simp [isDict] at hdv
            | vstr s => simp [isDict] at hdv
            | vdict ta =>
              have hdb : isDict bv = true := (compat_isDict cab) ▸ hdv
              cases bv with
              | vint m => simp [isDict] at hdb
              | vstr s => simp [isDict] at hdb
              | vdict tb =>
                have hdc : isDict cv = true := (compat_isDict cbc) ▸ hdb
                cases cv with
                | vint m => simp [isDict] at hdc
                | vstr s => simp [isDict] at hdc
                | vdict tc =>
                  simp only [mergeF_dict]
                  rw [wfVal_vdict, Bool.and_eq_true] at hwav hwbv hwcv
                  have s1 : sizeOf ta < sizeOf a := by
                    have := sizeOf_lookupA hA
                    simp at this
                    omega
                  have s2 : sizeOf tb < sizeOf b := by
                    have := sizeOf_lookupA hB
                    simp at this
                    omega
                  have s3 : sizeOf tc < sizeOf c := by
                    have := sizeOf_lookupA hC
                    simp at this
                    omega
                  exact ih (sizeOf ta + sizeOf tb + sizeOf tc) (by omega)
                    ta tb tc le_rfl hwav.2 hwbv.2 hwcv.2
                    hwav.1 hwbv.1 hwcv.1
                    (by rw [← compatVal_dict]; exact cab)
                    (by rw [← compatVal_dict]; exact cbc)
                    (by rw [← compatVal_dict]; exact cac)
          · have hdv2 : isDict av = false := by
              cases h2 : isDict av
              · rfl
              · exact absurd h2 hdv
            have hdb : isDict bv = false := (compat_isDict cab) ▸ hdv2
            have hdc : isDict cv = false := (compat_isDict cbc) ▸ hdb
            have e1 : mergeF (some av) bv = bv := mergeF_nondict _ hdb
            have e2 : mergeF (some bv) cv = cv := mergeF_nondict _ hdc
            have e3 : mergeF (some av) cv = cv := mergeF_nondict _ hdc
            simp only [e1, e2, e3]
            exact eqvVal_refl hwcv

theorem deepMerge_assoc {a b c : PyDict}
    (hwa : wfList a = true) (hwb : wfList b = true) (hwc : wfList c = true)
    (hna : noDupKeysB a = true) (hnb : noDupKeysB b = true)
    (hnc : noDupKeysB c = true)
    (hab : compatList a b = true) (hbc : compatList b c = true)
    (hac : compatList a c = true) :
    eqvVal (.vdict (deepMerge (deepMerge a b) c))
           (.vdict (deepMerge a (deepMerge b c))) = true :=
  deepMerge_assoc_aux (sizeOf a + sizeOf b + sizeOf c) a b c le_rfl
    hwa hwb hwc hna hnb hnc hab hbc hac

/- ### Remaining unfolding lemmas for concrete evaluation -/

theorem wfList_nil : wfList [] = true := by rw [wfList]

theorem wfVal_vint (n : Int) : wfVal (.vint n) = true := by rw [wfVal]

theorem wfVal_vstr (s : String) : wfVal (.vstr s) = true := by rw [wfVal]

theorem compatList_nil (m : PyDict) : compatList [] m = true := by
  rw [compatList]

/- ### C4 and C5: claim theorems -/

/-- C4: for every pair of configuration mappings, `merge_configs` produces a
mapping in which, at each key, (1) keys absent from the override keep their
base values, (2) when both layers hold nested mappings at the key the two are
merged recursively key-wise, and (3) otherwise the override value wins and is
assigned wholesale, never merged. -/
theorem C4_merge_configs_keywise (base o : PyDict) (k : String)
    (hnd : noDupKeysB o = true) :
    (lookupA o k = none →
      lookupA (merge_configs base (some o)) k = lookupA base k)
    ∧ (∀ bt ot, lookupA base k = some (.vdict bt) →
        lookupA o k = some (.vdict ot) →
        lookupA (merge_configs base (some o)) k
          = some (.vdict (deepMerge bt ot)))
    ∧ (∀ v, lookupA o k = some v →
        (isDict v = false ∨ ∀ bt, lookupA base k ≠ some (.vdict bt)) →
        lookupA (merge_configs base (some o)) k = some v) := by
  have hl := lookupA_deepMerge o base k hnd
  refine ⟨?_, ?_, ?_⟩
  · intro h
    simp only [merge_configs]
    rw [hl, h]
  · intro bt ot hb ho
    simp only [merge_configs]
    rw [hl, ho]
    simp only [hb, mergeF_dict]
  · intro v ho hcond
    simp only [merge_configs]
    rw [hl, ho]
    simp only []
    rcases hcond with h | h
    · rw [mergeF_nondict _ h]
    · cases hb : lookupA base k with
      | none => rw [mergeF_none]
      | some w =>
        cases w with
        | vint m => rw [mergeF_int_left]
        | vstr s => rw [mergeF_str_left]
        | vdict bt => exact absurd hb (h bt)

/-- Witness for C4 at a concrete input: merging
`\x7b a: 1, n: \x7b x: 1 \x7d \x7d` with override
`\x7b n: \x7b y: 2 \x7d, b: 3 \x7d` merges recursively at key `n`. -/
theorem C4_merge_configs_keywise_witness :
    noDupKeysB [("n", PyVal.vdict [("y", PyVal.vint 2)]),
      ("b", PyVal.vint 3)] = true
    ∧ lookupA (merge_configs
        [("a", PyVal.vint 1), ("n", PyVal.vdict [("x", PyVal.vint 1)])]
        (some [("n", PyVal.vdict [("y", PyVal.vint 2)]),
          ("b", PyVal.vint 3)])) "n"
      = some (.vdict (deepMerge [("x", PyVal.vint 1)]
          [("y", PyVal.vint 2)])) :=
  ⟨rfl,
    (C4_merge_configs_keywise
      [("a", PyVal.vint 1), ("n", PyVal.vdict [("x", PyVal.vint 1)])]
      [("n", PyVal.vdict [("y", PyVal.vint 2)]), ("b", PyVal.vint 3)]
      "n" rfl).2.1
      [("x", PyVal.vint 1)] [("y", PyVal.vint 2)] rfl rfl⟩

/-- C5 is false as stated: with base `\x7b k: \x7b x: 1 \x7d \x7d`, middle
layer `\x7b k: 0 \x7d` and top layer `\x7b k: \x7b\x7d \x7d`, merging
left-nested yields `\x7b k: \x7b\x7d \x7d` while right-nested yields
`\x7b k: \x7b x: 1 \x7d \x7d`: not the same mapping (Python `==`). -/
theorem C5_counterexample :
    eqvVal
      (.vdict (merge_configs
        (merge_configs [("k", PyVal.vdict [("x", PyVal.vint 1)])]
          (some [("k", PyVal.vint 0)]))
        (some [("k", PyVal.vdict [])])))
      (.vdict (merge_configs [("k", PyVal.vdict [("x", PyVal.vint 1)])]
        (some (merge_configs [("k", PyVal.vint 0)]
          (some [("k", PyVal.vdict [])])))))
      = false := by
  simp [merge_configs, deepMerge_cons, deepMerge_nil, lookupA, upsert,
    mergeF_int_right, mergeF_int_left, mergeF_dict, mergeF_none,
    eqvVal_vdict, eqvFwd_cons, eqvFwd_nil, eqvVal_vint, keysSubset, keyMem]

/-- C5 amended: layer merging is associative in precedence order provided the
three layers are duplicate-key-free and pairwise merge-compatible (no key
path holds a mapping in one layer and a non-mapping value in another);
sameness is Python dict equality.  Without compatibility, associativity
fails (see the counterexample). -/
theorem C5_merge_configs_assoc (a b c : PyDict)
    (hwa : wfList a = true) (hwb : wfList b = true) (hwc : wfList c = true)
    (hna : noDupKeysB a = true) (hnb : noDupKeysB b = true)
    (hnc : noDupKeysB c = true)
    (hab : compatList a b = true) (hbc : compatList b c = true)
    (hac : compatList a c = true) :
    eqvVal
      (.vdict (merge_configs (merge_configs a (some b)) (some c)))
      (.vdict (merge_configs a (some (merge_configs b (some c)))))
      = true := by
  simp only [merge_configs]
  exact deepMerge_assoc hwa hwb hwc hna hnb hnc hab hbc hac

/-- Witness for the amended C5 at concrete compatible layers with nested
dictionaries under key `d`. -/
theorem C5_merge_configs_assoc_witness :
    (wfList [("d", PyVal.vdict [("x", PyVal.vint 1)]), ("s", PyVal.vint 5)]
        = true
      ∧ wfList [("d", PyVal.vdict [("y", PyVal.vint 2)])] = true
      ∧ wfList [("d", PyVal.vdict [("x", PyVal.vint 7)]),
          ("t", PyVal.vstr "z")] = true
      ∧ compatList [("d", PyVal.vdict [("x", PyVal.vint 1)]),
          ("s", PyVal.vint 5)] [("d", PyVal.vdict [("y", PyVal.vint 2)])]
          = true)
    ∧ eqvVal
      (.vdict (merge_configs
        (merge_configs
          [("d", PyVal.vdict [("x", PyVal.vint 1)]), ("s", PyVal.vint 5)]
          (some [("d", PyVal.vdict [("y", PyVal.vint 2)])]))
        (some [("d", PyVal.vdict [("x", PyVal.vint 7)]),
          ("t", PyVal.vstr "z")])))
      (.vdict (merge_configs
        [("d", PyVal.vdict [("x", PyVal.vint 1)]), ("s", PyVal.vint 5)]
        (some (merge_configs [("d", PyVal.vdict [("y", PyVal.vint 2)])]
          (some [("d", PyVal.vdict [("x", PyVal.vint 7)]),
            ("t", PyVal.vstr "z")])))))
      = true :=
  ⟨⟨by simp [wfList_cons, wfVal_vdict, wfList_nil, wfVal_vint, wfVal_vstr,
      noDupKeysB, keyMem, lookupA],
    by simp [wfList_cons, wfVal_vdict, wfList_nil, wfVal_vint, wfVal_vstr,
      noDupKeysB, keyMem, lookupA],
    by simp [wfList_cons, wfVal_vdict, wfList_nil, wfVal_vint, wfVal_vstr,
      noDupKeysB, keyMem, lookupA],
    by simp [compatList_cons, compatList_nil, compatVal_dict, lookupA,
      compatVal]⟩,
   C5_merge_configs_assoc
    [("d", PyVal.vdict [("x", PyVal.vint 1)]), ("s", PyVal.vint 5)]
    [("d", PyVal.vdict [("y", PyVal.vint 2)])]
    [("d", PyVal.vdict [("x", PyVal.vint 7)]), ("t", PyVal.vstr "z")]
    (by simp [wfList_cons, wfVal_vdict, wfList_nil, wfVal_vint, wfVal_vstr,
      noDupKeysB, keyMem, lookupA])
    (by simp [wfList_cons, wfVal_vdict, wfList_nil, wfVal_vint, wfVal_vstr,
      noDupKeysB, keyMem, lookupA])
    (by simp [wfList_cons, wfVal_vdict, wfList_nil, wfVal_vint, wfVal_vstr,
      noDupKeysB, keyMem, lookupA])
    rfl rfl rfl
    (by simp [compatList_cons, compatList_nil, compatVal_dict, lookupA,
      compatVal])
    (by simp [compatList_cons, compatList_nil, compatVal_dict, lookupA,
      compatVal])
    (by simp [compatList_cons, compatList_nil, compatVal_dict, lookupA,
      compatVal])⟩

theorem checkMaxParams_ok (keys : List String) (mp : PyDict)
    (h : ∀ k ∈ keys, goodBound mp k) : checkMaxParams keys mp = .ok () := by
  induction keys with
  | nil => rfl
  | cons key rest ih =>
    obtain ⟨n, hn, hpos⟩ := h key (List.mem_cons_self _ _)
    simp only [checkMaxParams, hn]
    rw [if_neg (by omega)]
    exact ih (fun k hk => h k (List.mem_cons_of_mem _ hk))

theorem checkMaxParams_err (keys : List String) (mp : PyDict)
    (h : ∃ k ∈ keys, ¬ goodBound mp k) :
    ∃ k ∈ keys, ¬ goodBound mp k ∧
      (checkMaxParams keys mp = .error (.missingParamKey k)
        ∨ ∃ v, lookupA mp k = some v
            ∧ checkMaxParams keys mp = .error (.invalidValue k v)) := by
  induction keys with
  | nil => simp at h
  | cons key rest ih =>
    by_cases hg : goodBound mp key
    · obtain ⟨n, hn, hpos⟩ := hg
      have hstep : checkMaxParams (key :: rest) mp = checkMaxParams rest mp := by
        simp only [checkMaxParams, hn]
        rw [if_neg (by omega)]
      obtain ⟨k, hk, hbad, hres⟩ := by
        apply ih
        obtain ⟨k, hk, hbad⟩ := h
        rcases List.mem_cons.mp hk with rfl | hk2
        · exact absurd ⟨n, hn, hpos⟩ hbad
        · exact ⟨k, hk2, hbad⟩
      exact ⟨k, List.mem_cons_of_mem _ hk, hbad, by rw [hstep]; exact hres⟩
    · refine ⟨key, List.mem_cons_self _ _, hg, ?_⟩
      cases hl : lookupA mp key with
      | none => exact Or.inl (by simp [checkMaxParams, hl])
      | some v =>
        refine Or.inr ⟨v, rfl, ?_⟩
        cases v with
        | vint n =>
          have hneg : n < 0 := by
            by_contra hge
            exact hg ⟨n, hl, by omega⟩
          simp [checkMaxParams, hl, hneg]
        | vstr s2 => simp [checkMaxParams, hl]
        | vdict l => simp [checkMaxParams, hl]

/-- C6: on an environment configuration whose `max_params` entry is a
dictionary `mp`, validation returns True exactly when all seven required
bound keys are present with non-negative integer values, and otherwise
raises an error naming an offending key (missing, or carrying its invalid
value). -/
theorem C6_validate_env_config (env mp : PyDict)
    (hmp : lookupA env "max_params" = some (.vdict mp)) :
    ((∀ k ∈ required_max_params, goodBound mp k) →
      validate_env_config env = .ok true)
    ∧ ((∃ k ∈ required_max_params, ¬ goodBound mp k) →
      ∃ k ∈ required_max_params, ¬ goodBound mp k ∧
        (validate_env_config env = .error (.missingParamKey k)
          ∨ ∃ v, lookupA mp k = some v
              ∧ validate_env_config env = .error (.invalidValue k v))) := by
  constructor
  · intro h
    simp [validate_env_config, hmp, checkMaxParams_ok required_max_params mp h]
  · intro h
    obtain ⟨k, hk, hbad, hres⟩ := checkMaxParams_err required_max_params mp h
    refine ⟨k, hk, hbad, ?_⟩
    rcases hres with hres | ⟨v, hv, hres⟩
    · exact Or.inl (by simp [validate_env_config, hmp, hres])
    · exact Or.inr ⟨v, hv, by simp [validate_env_config, hmp, hres]⟩

/-- Witness for C6: a fully valid bounds map validates to True. -/
theorem C6_validate_env_config_witness :
    lookupA validEnvDict "max_params" = some (.vdict validBoundsDict)
    ∧ validate_env_config validEnvDict = .ok true :=
  ⟨rfl,
    (C6_validate_env_config validEnvDict validBoundsDict rfl).1 (by
      intro k hk
      simp only [required_max_params, List.mem_cons, List.not_mem_nil,
        or_false] at hk
      rcases hk with rfl | rfl | rfl | rfl | rfl | rfl | rfl
      · exact ⟨5, rfl, by omega⟩
      · exact ⟨2, rfl, by omega⟩
      · exact ⟨2, rfl, by omega⟩
      · exact ⟨1, rfl, by omega⟩
      · exact ⟨2, rfl, by omega⟩
      · exact ⟨3, rfl, by omega⟩
      · exact ⟨5, rfl, by omega⟩)⟩

/-- C2: for a bounds map containing the seven required keys, the computed
observation length is defined, depends only on the values at those keys
(determinism: equal bounds give equal length, with no environment ever
involved), and equals the spec's closed-form sum of per-type bound times
per-type field count. -/
theorem C2_get_observation_size (mp : BoundsMap)
    (hosts procs conns vulns ifaces sess users : Int)
    (h1 : lookupI mp "MAX_HOSTS" = some hosts)
    (h2 : lookupI mp "MAX_PROCESSES" = some procs)
    (h3 : lookupI mp "MAX_CONNECTIONS" = some conns)
    (h4 : lookupI mp "MAX_VULNERABILITIES" = some vulns)
    (h5 : lookupI mp "MAX_INTERFACES" = some ifaces)
    (h6 : lookupI mp "MAX_SESSIONS" = some sess)
    (h7 : lookupI mp "MAX_USERS" = some users) :
    get_observation_size (some mp)
      = some (specObservationSize hosts procs conns vulns ifaces sess users)
    ∧ (∀ mp2 : BoundsMap,
        lookupI mp2 "MAX_HOSTS" = some hosts →
        lookupI mp2 "MAX_PROCESSES" = some procs →
        lookupI mp2 "MAX_CONNECTIONS" = some conns →
        lookupI mp2 "MAX_VULNERABILITIES" = some vulns →
        lookupI mp2 "MAX_INTERFACES" = some ifaces →
        lookupI mp2 "MAX_SESSIONS" = some sess →
        lookupI mp2 "MAX_USERS" = some users →
        get_observation_size (some mp2) = get_observation_size (some mp)) := by
  constructor
  · simp only [get_observation_size, Option.getD, h1, h2, h3, h4, h5, h6, h7]
    rw [Option.some_inj]
    unfold specObservationSize
    ring
  · intro mp2 g1 g2 g3 g4 g5 g6 g7
    simp only [get_observation_size, Option.getD,
      h1, h2, h3, h4, h5, h6, h7, g1, g2, g3, g4, g5, g6, g7]

/-- Witness for C2 at the default bounds map: length 5 * 44 = 220. -/
theorem C2_get_observation_size_witness :
    lookupI default_max_params "MAX_HOSTS" = some 5
    ∧ get_observation_size (some default_max_params)
        = some (specObservationSize 5 2 2 1 2 3 5) :=
  ⟨rfl,
    (C2_get_observation_size default_max_params 5 2 2 1 2 3 5
      rfl rfl rfl rfl rfl rfl rfl).1⟩

/-- C3: with a usable environment configuration (its `max_params` present, or
no configuration so the default is used), building fails exactly when the
scenario path cannot be located — with an error naming the path, checked
first — or when the parallelism is below 1 (the empty-vector failure of the
vectorization stage, which the repository does not itself guard against);
for an existing scenario and parallelism of at least 1 it returns a
vectorized handle carrying that parallelism. -/
theorem C3_create_cyborg_environment (fs : List String)
    (scenario_path : String) (env_config : Option EnvCfg) (n_envs : Int)
    (hcfg : (env_config.getD _get_default_env_config).maxParams?.isSome
      = true) :
    (isOkB (create_cyborg_environment fs scenario_path env_config n_envs)
        = false
      ↔ (scenario_path ∉ fs ∨ n_envs < 1))
    ∧ (scenario_path ∉ fs →
        create_cyborg_environment fs scenario_path env_config n_envs
          = .error (.scenarioNotFound scenario_path))
    ∧ (scenario_path ∈ fs → n_envs < 1 →
        create_cyborg_environment fs scenario_path env_config n_envs
          = .error .emptyVecEnv)
    ∧ (scenario_path ∈ fs → 1 ≤ n_envs →
        create_cyborg_environment fs scenario_path env_config n_envs
          = .ok ⟨n_envs⟩) := by
  obtain ⟨mp, hmp⟩ := Option.isSome_iff_exists.mp hcfg
  by_cases hsc : scenario_path ∈ fs
  · by_cases hn : n_envs < 1
    · refine ⟨?_, ?_, ?_, ?_⟩
      · simp [create_cyborg_environment, make_vec_env, hsc, hn, isOkB]
      · intro h; exact absurd hsc h
      · intro _ _
        simp [create_cyborg_environment, make_vec_env, hsc, hn]
      · intro _ hge; omega
    · refine ⟨?_, ?_, ?_, ?_⟩
      · simp [create_cyborg_environment, make_vec_env, hsc, hn, isOkB, hmp]
      · intro h; exact absurd hsc h
      · intro _ hlt; omega
      · intro _ _
        simp [create_cyborg_environment, make_vec_env, hsc, hn, hmp]
  · refine ⟨?_, ?_, ?_, ?_⟩
    · simp [create_cyborg_environment, hsc, isOkB]
    · intro _
      simp [create_cyborg_environment, hsc]
    · intro h; exact absurd h hsc
    · intro h; exact absurd h hsc

/-- Witness for C3: with the default configuration, an existing scenario
file and parallelism 2, the build returns a handle; and a scenario path
missing from the file system produces the error naming it. -/
theorem C3_create_cyborg_environment_witness :
    ((none : Option EnvCfg).getD _get_default_env_config).maxParams?.isSome
        = true
    ∧ create_cyborg_environment ["/opt/ml/input/data/scenarios/sc.yaml"]
        "/opt/ml/input/data/scenarios/sc.yaml" none 2 = .ok ⟨2⟩ :=
  ⟨rfl,
    (C3_create_cyborg_environment ["/opt/ml/input/data/scenarios/sc.yaml"]
      "/opt/ml/input/data/scenarios/sc.yaml" none 2 rfl).2.2.2
      (by simp) (by omega)⟩

theorem cleanup_drop (N : Nat) (s : CkptState) :
    cleanup_old_checkpoints N s = ⟨s.disk.drop (s.disk.length - N), s.saved⟩ := by
  unfold cleanup_old_checkpoints
  rw [← List.rtake_eq_reverse_take_reverse]
  rfl

theorem runEvents_append (N : Nat) (s : CkptState) (xs ys : List RunEvent) :
    runEvents N s (xs ++ ys) = runEvents N (runEvents N s xs) ys := by
  induction xs generalizing s with
  | nil => rfl
  | cons e rest ih => exact ih (execEvent N s e)

theorem saveSteps_append (xs ys : List RunEvent) :
    saveSteps (xs ++ ys) = saveSteps xs ++ saveSteps ys := by
  induction xs with
  | nil => rfl
  | cons e rest ih => cases e <;> simp [saveSteps, ih]

theorem runEvents_disk (N : Nat) :
    ∀ (events : List RunEvent) (s : CkptState) (l0 : List Nat),
      s.disk = l0.map CkptName.periodic →
      ∃ l : List Nat, (runEvents N s events).disk = l.map CkptName.periodic
        ∧ l.Sublist (l0 ++ saveSteps events) := by
  intro events
  induction events with
  | nil =>
    intro s l0 h
    exact ⟨l0, h, by simp [saveSteps]⟩
  | cons e rest ih =>
    intro s l0 h
    cases e with
    | save t =>
      obtain ⟨l, hdisk, hsub⟩ := ih (execEvent N s (.save t)) (l0 ++ [t])
        (by simp [execEvent, saveCheckpoint, h])
      refine ⟨l, hdisk, ?_⟩
      have : l0 ++ [t] ++ saveSteps rest = l0 ++ saveSteps (.save t :: rest) := by
        simp [saveSteps]
      exact this ▸ hsub
    | evict =>
      obtain ⟨l, hdisk, hsub⟩ := ih (execEvent N s .evict)
        (l0.drop (l0.length - N))
        (by
          simp only [execEvent, cleanup_drop, h]
          rw [List.map_drop]
          simp [List.length_map])
      refine ⟨l, hdisk, ?_⟩
      have h1 : List.Sublist ((l0.drop (l0.length - N)) ++ saveSteps rest)
          (l0 ++ saveSteps rest) :=
        List.Sublist.append_right (List.drop_sublist _ _) _
      have h2 : saveSteps (RunEvent.evict :: rest) = saveSteps rest := by
        simp [saveSteps]
      rw [h2]
      exact hsub.trans h1

/-- C1: along any run — a sequence of periodic saves with strictly
increasing global steps, interleaved with eviction passes — every eviction
pass leaves at most `N` periodic checkpoints, namely exactly the
`min N _` most recent by step count of those on disk before the pass
(everything evicted has a smaller step than everything kept); no final
checkpoint exists during the run, so eviction passes never see one, and the
run-end hook then puts the final checkpoint on disk after the last eviction
pass, so no eviction pass ever deletes it, whatever `N`. -/
theorem C1_retention (N : Nat) (events : List RunEvent)
    (hmono : List.Chain' (· < ·) (saveSteps events)) :
    (∀ pre post, events = pre ++ .evict :: post →
      ∃ l : List Nat,
        (runEvents N initCkptState pre).disk = l.map CkptName.periodic
        ∧ (runEvents N initCkptState (pre ++ [.evict])).disk
            = (l.drop (l.length - N)).map CkptName.periodic
        ∧ (l.drop (l.length - N)).length = min N l.length
        ∧ (l.drop (l.length - N)).length ≤ N
        ∧ (∀ x ∈ l.take (l.length - N), ∀ y ∈ l.drop (l.length - N), x < y))
    ∧ CkptName.final ∉ (runEvents N initCkptState events).disk
    ∧ (ckptOnTrainingEnd (runEvents N initCkptState events)).1.disk
        = (runEvents N initCkptState events).disk ++ [CkptName.final] := by
  refine ⟨?_, ?_, rfl⟩
  · intro pre post heq
    obtain ⟨l, hdisk, hsub⟩ := runEvents_disk N pre initCkptState [] rfl
    rw [List.nil_append] at hsub
    have hpresub : List.Sublist (saveSteps pre) (saveSteps events) := by
      rw [heq, saveSteps_append]
      exact List.sublist_append_left _ _
    have hchain : List.Chain' (· < ·) l :=
      List.Chain'.sublist hmono (hsub.trans hpresub)
    have hpair := List.chain'_iff_pairwise.mp hchain
    refine ⟨l, hdisk, ?_, ?_, ?_, ?_⟩
    · rw [runEvents_append]
      show (cleanup_old_checkpoints N (runEvents N initCkptState pre)).disk
        = _
      rw [cleanup_drop]
      simp only [hdisk, List.map_drop, List.length_map]
    · rw [List.length_drop]
      omega
    · rw [List.length_drop]
      omega
    · have hp2 : List.Pairwise (· < ·)
          (l.take (l.length - N) ++ l.drop (l.length - N)) := by
        rw [List.take_append_drop]
        exact hpair
      exact fun x hx y hy => (List.pairwise_append.mp hp2).2.2 x hx y hy
  · obtain ⟨l, hdisk, _⟩ := runEvents_disk N events initCkptState [] rfl
    rw [hdisk]
    simp

/-- Witness for C1: three saves at steps 1, 3, 5 followed by an eviction
pass with keep_last_n = 2. -/
theorem C1_retention_witness :
    List.Chain' (· < ·)
      (saveSteps [.save 1, .save 3, .save 5, .evict])
    ∧ ∃ l : List Nat,
        (runEvents 2 initCkptState [.save 1, .save 3, .save 5]).disk
          = l.map CkptName.periodic
        ∧ (runEvents 2 initCkptState
            ([.save 1, .save 3, .save 5] ++ [.evict])).disk
            = (l.drop (l.length - 2)).map CkptName.periodic
        ∧ (l.drop (l.length - 2)).length = min 2 l.length
        ∧ (l.drop (l.length - 2)).length ≤ 2
        ∧ (∀ x ∈ l.take (l.length - 2), ∀ y ∈ l.drop (l.length - 2),
            x < y) :=
  ⟨by simp [saveSteps, List.chain'_cons],
    (C1_retention 2 [.save 1, .save 3, .save 5, .evict]
      (by simp [saveSteps, List.chain'_cons])).1
      [.save 1, .save 3, .save 5] [] rfl⟩

/-- C9: on run termination the run-end hook unconditionally appends exactly
one checkpoint marked final — whatever the state, in particular right after
a periodic save at the same step — named `<pfx>_final.zip`, while every
periodic save writes `<pfx>_<globalStep>.zip`. -/
theorem C9_final_checkpoint (pfx : String) (s : CkptState)
    (hnof : CkptName.final ∉ s.disk) :
    (ckptOnTrainingEnd s).1.disk = s.disk ++ [CkptName.final]
    ∧ (ckptOnTrainingEnd s).1.disk.count CkptName.final = 1
    ∧ renderCkptName pfx CkptName.final = pfx ++ "_final.zip"
    ∧ (∀ t : Nat, renderCkptName pfx (.periodic t)
        = pfx ++ "_" ++ toString t ++ ".zip")
    ∧ (∀ save_freq n_calls t up, (n_calls % save_freq == 0) = true →
        (ckptOnStep save_freq n_calls t up s).1.disk
          = s.disk ++ [.periodic t]) := by
  refine ⟨rfl, ?_, rfl, fun t => rfl, ?_⟩
  · show (s.disk ++ [CkptName.final]).count CkptName.final = 1
    rw [List.count_append]
    have h0 : s.disk.count CkptName.final = 0 :=
      List.count_eq_zero.mpr hnof
    simp [h0]
  · intro f nc t up h
    simp [ckptOnStep, h, saveCheckpoint]

/-- Witness for C9: a directory already holding the periodic checkpoint of
step 5 (the cadence has just fired there). -/
theorem C9_final_checkpoint_witness :
    CkptName.final ∉ (⟨[.periodic 5], 1⟩ : CkptState).disk
    ∧ ((ckptOnTrainingEnd ⟨[.periodic 5], 1⟩).1.disk
        = [CkptName.periodic 5, CkptName.final]
      ∧ (ckptOnTrainingEnd ⟨[.periodic 5], 1⟩).1.disk.count CkptName.final
          = 1
      ∧ renderCkptName "checkpoint" CkptName.final = "checkpoint_final.zip") :=
  ⟨by decide,
    ⟨(C9_final_checkpoint "checkpoint" ⟨[.periodic 5], 1⟩ (by decide)).1,
     (C9_final_checkpoint "checkpoint" ⟨[.periodic 5], 1⟩ (by decide)).2.1,
     (C9_final_checkpoint "checkpoint" ⟨[.periodic 5], 1⟩ (by decide)).2.2.1⟩⟩

theorem mem_optLine {nv : List (String × String)} {src out : String}
    {p : String × String} :
    p ∈ optLine nv src out ↔ (p.1 = out ∧ lookupS nv src = some p.2) := by
  cases h : lookupS nv src with
  | none => simp [optLine, h]
  | some w =>
    simp only [optLine, h, List.mem_singleton]
    constructor
    · intro he
      subst he
      exact ⟨rfl, rfl⟩
    · intro ⟨h1, h2⟩
      obtain ⟨p1, p2⟩ := p
      simp at h1 h2
      simp [h1, h2]

theorem mem_explLine {expl : Option String} {p : String × String} :
    p ∈ explLine expl ↔ (p.1 = "exploration_rate" ∧ expl = some p.2) := by
  cases expl with
  | none => simp [explLine]
  | some e =>
    simp only [explLine, List.mem_singleton]
    constructor
    · intro he
      subst he
      exact ⟨rfl, rfl⟩
    · intro ⟨h1, h2⟩
      obtain ⟨p1, p2⟩ := p
      simp at h1 h2
      simp [h1, h2]

/-- C8: every traversal of the episode-end path emits the four required
metric lines for that episode, and each optional algorithm-dependent line
appears exactly when the corresponding value is available (the model's
exploration-rate attribute, or the logger store's key) — absence emits
nothing and is never an error; the `_on_step` hook with one finished episode
emits exactly these lines and returns True. -/
theorem C8_episode_metrics (reward len : String) (count t : Nat)
    (expl : Option String) (store : Option (List (String × String))) :
    (("episode_reward", reward)
        ∈ emitEpisodeLines reward len count t expl store
      ∧ ("episode_length", len)
          ∈ emitEpisodeLines reward len count t expl store
      ∧ ("episode_number", toString count)
          ∈ emitEpisodeLines reward len count t expl store
      ∧ ("total_timesteps", toString t)
          ∈ emitEpisodeLines reward len count t expl store)
    ∧ (∀ v, ("exploration_rate", v)
        ∈ emitEpisodeLines reward len count t expl store ↔ expl = some v)
    ∧ (∀ v, ("loss", v)
        ∈ emitEpisodeLines reward len count t expl store
        ↔ ∃ nv, store = some nv ∧ lookupS nv "train/loss" = some v)
    ∧ (∀ v, ("policy_loss", v)
        ∈ emitEpisodeLines reward len count t expl store
        ↔ ∃ nv, store = some nv ∧ lookupS nv "train/policy_loss" = some v)
    ∧ (∀ v, ("value_loss", v)
        ∈ emitEpisodeLines reward len count t expl store
        ↔ ∃ nv, store = some nv ∧ lookupS nv "train/value_loss" = some v)
    ∧ (∀ v, ("entropy_loss", v)
        ∈ emitEpisodeLines reward len count t expl store
        ↔ ∃ nv, store = some nv ∧ lookupS nv "train/entropy_loss" = some v)
    ∧ (∀ v, ("approx_kl", v)
        ∈ emitEpisodeLines reward len count t expl store
        ↔ ∃ nv, store = some nv ∧ lookupS nv "train/approx_kl" = some v)
    ∧ (∀ v, ("clip_fraction", v)
        ∈ emitEpisodeLines reward len count t expl store
        ↔ ∃ nv, store = some nv ∧ lookupS nv "train/clip_fraction" = some v)
    ∧ (∀ v, ("per_beta", v)
        ∈ emitEpisodeLines reward len count t expl store
        ↔ ∃ nv, store = some nv
            ∧ lookupS nv "replay_buffer/prioritized_replay_beta" = some v)
    ∧ (∀ st ep, sagemakerOnStep st [(true, some ep)] t expl store
        = (⟨st.episode_rewards ++ [ep.r], st.episode_lengths ++ [ep.l],
            st.episode_count + 1⟩,
           emitEpisodeLines ep.r ep.l (st.episode_count + 1) t expl store,
           true)) := by
  refine ⟨⟨?_, ?_, ?_, ?_⟩, ?_, ?_, ?_, ?_, ?_, ?_, ?_, ?_, ?_⟩
  · simp [emitEpisodeLines]
  · simp [emitEpisodeLines]
  · simp [emitEpisodeLines]
  · simp [emitEpisodeLines]
  · intro v
    rcases store with _ | nv <;>
      simp [emitEpisodeLines, emit_algorithm_metrics, mem_optLine,
        mem_explLine]
  · intro v
    rcases store with _ | nv <;>
      simp [emitEpisodeLines, emit_algorithm_metrics, mem_optLine,
        mem_explLine]
  · intro v
    rcases store with _ | nv <;>
      simp [emitEpisodeLines, emit_algorithm_metrics, mem_optLine,
        mem_explLine]
  · intro v
    rcases store with _ | nv <;>
      simp [emitEpisodeLines, emit_algorithm_metrics, mem_optLine,
        mem_explLine]
  · intro v
    rcases store with _ | nv <;>
      simp [emitEpisodeLines, emit_algorithm_metrics, mem_optLine,
        mem_explLine]
  · intro v
    rcases store with _ | nv <;>
      simp [emitEpisodeLines, emit_algorithm_metrics, mem_optLine,
        mem_explLine]
  · intro v
    rcases store with _ | nv <;>
      simp [emitEpisodeLines, emit_algorithm_metrics, mem_optLine,
        mem_explLine]
  · intro v
    rcases store with _ | nv <;>
      simp [emitEpisodeLines, emit_algorithm_metrics, mem_optLine,
        mem_explLine]
  · intro st ep
    simp [sagemakerOnStep, smProcess]

/-- C7: a launch whose container image, algorithm configuration or scenario
object is absent from external storage fails in the pre-flight check with an
error naming that artifact and never reaches the descriptor build step; and
on every launch path the descriptor is built only after the pre-flight check
has run and succeeded. -/
theorem C7_preflight_gate (st : ArtifactStore)
    (trainingImage algorithm scenario imageTag : String) :
    (imageTag ∉ st.ecrImageTags →
      (launch_main st trainingImage algorithm scenario imageTag).2
          = .error (.imageMissing (trainingImage ++ ":" ++ imageTag))
        ∧ LaunchStep.builtDescriptor
            ∉ (launch_main st trainingImage algorithm scenario imageTag).1)
    ∧ (imageTag ∈ st.ecrImageTags →
        ("configs/algorithms/" ++ algorithm ++ ".yaml") ∉ st.s3Keys →
        (launch_main st trainingImage algorithm scenario imageTag).2
            = .error (.configMissing
                ("configs/algorithms/" ++ algorithm ++ ".yaml"))
          ∧ LaunchStep.builtDescriptor
              ∉ (launch_main st trainingImage algorithm scenario imageTag).1)
    ∧ (imageTag ∈ st.ecrImageTags →
        ("configs/algorithms/" ++ algorithm ++ ".yaml") ∈ st.s3Keys →
        ("configs/environments/scenarios/" ++ scenario) ∉ st.s3Keys →
        (launch_main st trainingImage algorithm scenario imageTag).2
            = .error (.scenarioMissing
                ("configs/environments/scenarios/" ++ scenario))
          ∧ LaunchStep.builtDescriptor
              ∉ (launch_main st trainingImage algorithm scenario imageTag).1)
    ∧ (LaunchStep.builtDescriptor
          ∈ (launch_main st trainingImage algorithm scenario imageTag).1 →
        check_prerequisites st trainingImage algorithm scenario imageTag
            = .ok ()
          ∧ (launch_main st trainingImage algorithm scenario imageTag).1
              = [.checkedPrerequisites, .builtDescriptor, .submitted]) := by
  refine ⟨?_, ?_, ?_, ?_⟩
  · intro h
    simp [launch_main, check_prerequisites, h]
  · intro h1 h2
    simp [launch_main, check_prerequisites, h1, h2]
  · intro h1 h2 h3
    simp [launch_main, check_prerequisites, h1, h2, h3]
  · intro hmem
    cases hch : check_prerequisites st trainingImage algorithm scenario
        imageTag with
    | error e =>
      rw [show launch_main st trainingImage algorithm scenario imageTag
          = ([], .error e) from by simp [launch_main, hch]] at hmem
      simp at hmem
    | ok u =>
      exact ⟨rfl, by simp [launch_main, hch]⟩

/-- Witness for C7, mirroring the spec's example: storage holds the image
tag `latest` and the drqn algorithm config but not the scenario
`drqn_scenario.yaml`; pre-flight fails naming the scenario object and the
descriptor is never built. -/
theorem C7_preflight_gate_witness :
    "latest" ∈ (⟨["latest"], ["configs/algorithms/drqn.yaml"]⟩
        : ArtifactStore).ecrImageTags
    ∧ ((launch_main ⟨["latest"], ["configs/algorithms/drqn.yaml"]⟩
          "ecr/cyborg" "drqn" "drqn_scenario.yaml" "latest").2
        = .error (.scenarioMissing
            ("configs/environments/scenarios/" ++ "drqn_scenario.yaml"))
      ∧ LaunchStep.builtDescriptor
          ∉ (launch_main ⟨["latest"], ["configs/algorithms/drqn.yaml"]⟩
              "ecr/cyborg" "drqn" "drqn_scenario.yaml" "latest").1) :=
  ⟨by decide,
    (C7_preflight_gate ⟨["latest"], ["configs/algorithms/drqn.yaml"]⟩
      "ecr/cyborg" "drqn" "drqn_scenario.yaml" "latest").2.2.1
      (by decide) (by decide) (by decide)⟩

/- ### C10: no step hook ever stops training -/

/-- C10: each per-step lifecycle hook returns True on every input — the
checkpoint hook both when the cadence fires and when it does not, the
retention hook both when it cleans and when it skips, the telemetry hook on
any dones/infos batch — and a failing remote upload inside the checkpoint
hook is converted by the upload helper into a False return value, never a
propagated exception (and leaves the hook result True). -/
theorem C10_step_hooks_return_true :
    (∀ save_freq n_calls t up s,
      (ckptOnStep save_freq n_calls t up s).2 = true)
    ∧ (∀ keep_last_n n_calls s, (latestOnStep keep_last_n n_calls s).2 = true)
    ∧ (∀ st donesInfos t expl store,
        (sagemakerOnStep st donesInfos t expl store).2.2 = true)
    ∧ (∀ cfg msg, uploadToS3 cfg (.error msg) = false)
    ∧ (∀ save_freq n_calls t msg s,
        (ckptOnStep save_freq n_calls t (.error msg) s).2 = true) := by
  refine ⟨?_, ?_, ?_, ?_, ?_⟩
  · intro f n t up s
    by_cases h : n % f == 0 <;> simp [ckptOnStep, h]
  · intro k n s
    by_cases h : n % 100 == 0 <;> simp [latestOnStep, h]
  · intro st di t expl store
    by_cases h : di.any (fun p => p.1) <;> simp [sagemakerOnStep, h]
  · intro cfg msg
    cases cfg <;> simp [uploadToS3]
  · intro f n t msg s
    by_cases h : n % f == 0 <;> simp [ckptOnStep, h]
